import Mathlib

/-
Verification of the Hybrid Retrieval Fusion Engine
(src/retrieval/hybrid_search.py and src/retrieval/vector_store.py).

Python scalars stored in document metadata are modelled by MetaVal;
float values are modelled as rationals.  Dictionaries preserving
insertion order are modelled as association lists.  Fallible external
collaborators (the vector store, the BM25 retriever, the reranker)
are modelled as oracle functions carried in a SearchEnv record.
String helpers are implemented over character lists so that concrete
instances evaluate inside the kernel.
-/

/-- Drop leading whitespace characters. -/
def dropWS (cs : List Char) : List Char := cs.dropWhile (fun c => c.isWhitespace)

/-- Embedding of Python str.strip(): drop whitespace on both ends. -/
def pyStripL (cs : List Char) : List Char := (dropWS ((dropWS cs.reverse).reverse))

/-- Embedding of Python str.strip() on strings. -/
def pyStrip (s : String) : String := String.mk (pyStripL s.data)

/-- Lower-case a character (ASCII, as used by the latest-intent matching). -/
def lowerChar (c : Char) : Char :=
  if 65 ≤ c.toNat ∧ c.toNat ≤ 90 then Char.ofNat (c.toNat + 32) else c

/-- Embedding of Python str.lower() (ASCII range). -/
def pyLower (s : String) : String := String.mk (s.data.map lowerChar)

/-- Scalar metadata value as stored by the pipeline: string, int, float or bool. -/
inductive MetaVal where
  | str (v : String)
  | int (v : ℤ)
  | float (v : ℚ)
  | bool (v : Bool)
deriving DecidableEq

/-- Metadata dictionary: association list from keys to scalar values. -/
abbrev Metadata := List (String × MetaVal)

/-- Document with page content and metadata, mirroring langchain Document. -/
structure Doc where
  page_content : String
  metadata : Metadata
deriving DecidableEq

/-- Dictionary lookup md.get(k): first binding for the key, none if absent. -/
def mdGet (md : Metadata) (k : String) : Option MetaVal :=
  (md.find? (fun p => p.1 == k)).map (fun p => p.2)

/-- Python truthiness of a scalar: empty string, 0, 0.0 and False are falsy. -/
def truthy : MetaVal → Bool
  | .str v => !(v == "")
  | .int v => !(v == 0)
  | .float v => !(v == 0)
  | .bool v => v

/-- Python truthiness of an optional scalar: None is falsy. -/
def truthyO : Option MetaVal → Bool
  | none => false
  | some v => truthy v

/-- Python str() rendering of a scalar.  Integral floats render with a
trailing .0 as Python does; other rationals use the Lean rendering (the
engine only ever renders strings and ints on the paths under study). -/
def pyStr : MetaVal → String
  | .str v => v
  | .int v => toString v
  | .float v => if v.den = 1 then toString v.num ++ ".0" else toString v
  | .bool v => if v then "True" else "False"

/-- Parse a decimal natural number from a nonempty list of digit characters. -/
def digitsToNat : List Char → Option ℕ
  | [] => none
  | cs =>
    if cs.all (fun c => c.isDigit) then
      some (cs.foldl (fun acc c => acc * 10 + (c.toNat - 48)) 0)
    else
      none

/-- Embedding of Python int(s) on a string: strip whitespace, optional
sign, decimal digits; none where int() raises ValueError. -/
def parseInt (s : String) : Option ℤ :=
  match pyStripL s.data with
  | '-' :: cs => (digitsToNat cs).map (fun n => -(n : ℤ))
  | '+' :: cs => (digitsToNat cs).map (fun n => (n : ℤ))
  | cs => (digitsToNat cs).map (fun n => (n : ℤ))

/-- Python int() conversion of a present scalar, returning none where
int() raises.  Float conversion truncates toward zero. -/
def safeIntVal : MetaVal → Option ℤ
  | .int v => some v
  | .bool v => some (if v then 1 else 0)
  | .float v => some (v.num / (v.den : ℤ))
  | .str v => parseInt v

/-- Embedding of _safe_int (src/retrieval/hybrid_search.py lines 66-70):
int(val) guarded by try/except, with None mapping to None. -/
def safeInt : Option MetaVal → Option ℤ
  | none => none
  | some v => safeIntVal v

example : safeInt (some (.str " 2024 ")) = some 2024 := by decide
example : safeInt (some (.str "abc")) = none := by decide
example : safeInt none = none := by decide
example : pyLower "AbC-2" = "abc-2" := by decide

/-
Date handling (src/retrieval/hybrid_search.py lines 166-213).
The source parses date strings with datetime.fromisoformat plus a list
of strptime formats and converts to epoch seconds.  The model implements
the same formats over character lists; naive datetimes are interpreted
as UTC (the source uses the process-local timezone for naive values,
which is an environment effect outside the model).
-/

/-- Days since 1970-01-01 of a proleptic Gregorian civil date. -/
def daysFromCivil (y m d : ℤ) : ℤ :=
  let y2 : ℤ := if m ≤ 2 then y - 1 else y
  let era : ℤ := (if 0 ≤ y2 then y2 else y2 - 399) / 400
  let yoe : ℤ := y2 - era * 400
  let doy : ℤ := (153 * (if 2 < m then m - 3 else m + 9) + 2) / 5 + d - 1
  let doe : ℤ := yoe * 365 + yoe / 4 - yoe / 100 + doy
  era * 146097 + doe - 719468

/-- Number of days in a month of the Gregorian calendar. -/
def daysInMonth (y m : ℤ) : ℤ :=
  if m = 2 then
    if (y % 4 = 0 ∧ y % 100 ≠ 0) ∨ y % 400 = 0 then 29 else 28
  else if m = 4 ∨ m = 6 ∨ m = 9 ∨ m = 11 then 30
  else 31

/-- Check that a year, month, day triple is a valid civil date. -/
def validYMD (y m d : ℤ) : Bool :=
  decide (1 ≤ m ∧ m ≤ 12 ∧ 1 ≤ d ∧ d ≤ daysInMonth y m)

/-- Epoch seconds of a civil date at midnight UTC. -/
def epochOfYMD (y m d : ℤ) : ℤ := daysFromCivil y m d * 86400

/-- Parse exactly the given digit characters as a natural number,
requiring the count to lie between lo and hi. -/
def digitsBetween (lo hi : ℕ) (cs : List Char) : Option ℕ :=
  if lo ≤ cs.length ∧ cs.length ≤ hi then digitsToNat cs else none

/-- Expand every Z character to +00:00, as the source does with
s.replace(Z, +00:00) before calling fromisoformat. -/
def replaceZ : List Char → List Char
  | [] => []
  | c :: cs => if c = 'Z' then '+' :: '0' :: '0' :: ':' :: '0' :: '0' :: replaceZ cs else c :: replaceZ cs

/-- Parse HH:MM or HH:MM:SS into seconds since midnight. -/
def parseTimeOfDay (cs : List Char) : Option ℤ :=
  match cs.splitOn ':' with
  | [h, mi] => do
    let hv ← digitsBetween 2 2 h
    let mv ← digitsBetween 2 2 mi
    if hv < 24 ∧ mv < 60 then some ((hv : ℤ) * 3600 + (mv : ℤ) * 60) else none
  | [h, mi, se] => do
    let hv ← digitsBetween 2 2 h
    let mv ← digitsBetween 2 2 mi
    let sv ← digitsBetween 2 2 se
    if hv < 24 ∧ mv < 60 ∧ sv < 60 then
      some ((hv : ℤ) * 3600 + (mv : ℤ) * 60 + (sv : ℤ))
    else none
  | _ => none

/-- Parse the date part YYYY-MM-DD of an ISO string. -/
def parseISODate (cs : List Char) : Option (ℤ × ℤ × ℤ) :=
  match cs.splitOn '-' with
  | [ys, ms, ds] => do
    let yv ← digitsBetween 4 4 ys
    let mv ← digitsBetween 2 2 ms
    let dv ← digitsBetween 2 2 ds
    if validYMD (yv : ℤ) (mv : ℤ) (dv : ℤ) then some ((yv : ℤ), (mv : ℤ), (dv : ℤ)) else none
  | _ => none

/-- Parse a +HH:MM or -HH:MM UTC offset into seconds. -/
def parseOffset (cs : List Char) : Option ℤ :=
  match cs with
  | sgn :: rest =>
    if sgn = '+' ∨ sgn = '-' then do
      let t ← parseTimeOfDay rest
      some (if sgn = '-' then -t else t)
    else none
  | [] => none

/-- Embedding of datetime.fromisoformat followed by timestamp(), for ISO
date and datetime strings with optional seconds and UTC offset. -/
def parseISO (cs : List Char) : Option ℤ :=
  let cs := replaceZ cs
  match parseISODate (cs.take 10) with
  | none => none
  | some (y, m, d) =>
    match cs.drop 10 with
    | [] => some (epochOfYMD y m d)
    | sep :: rest =>
      if sep = 'T' ∨ sep = ' ' then
        let (timePart, offPart) :=
          match rest.findIdx? (fun c => c = '+' || c = '-') with
          | some i => (rest.take i, rest.drop i)
          | none => (rest, [])
        match parseTimeOfDay timePart with
        | none => none
        | some t =>
          match offPart with
          | [] => some (epochOfYMD y m d + t)
          | off =>
            match parseOffset off with
            | none => none
            | some o => some (epochOfYMD y m d + t - o)
      else none

/-- Month number of a lower-cased English month abbreviation. -/
def monthOfAbbrev (cs : List Char) : Option ℤ :=
  match String.mk cs with
  | "jan" => some 1 | "feb" => some 2 | "mar" => some 3 | "apr" => some 4
  | "may" => some 5 | "jun" => some 6 | "jul" => some 7 | "aug" => some 8
  | "sep" => some 9 | "oct" => some 10 | "nov" => some 11 | "dec" => some 12
  | _ => none

/-- Month number of a lower-cased full English month name. -/
def monthOfName (cs : List Char) : Option ℤ :=
  match String.mk cs with
  | "january" => some 1 | "february" => some 2 | "march" => some 3
  | "april" => some 4 | "may" => some 5 | "june" => some 6 | "july" => some 7
  | "august" => some 8 | "september" => some 9 | "october" => some 10
  | "november" => some 11 | "december" => some 12
  | _ => none

/-- Month number of an abbreviated or full month name, case-insensitive
as in strptime. -/
def monthOfWord (cs : List Char) : Option ℤ :=
  let lo := cs.map lowerChar
  match monthOfAbbrev lo with
  | some m => some m
  | none => monthOfName lo

/-- Build the epoch for a strptime-parsed date, checking validity. -/
def epochIfValid (y m d : ℤ) : Option ℤ :=
  if validYMD y m d then some (epochOfYMD y m d) else none

/-- Embedding of strptime with format day month year (%d %b %Y, %d %B %Y). -/
def parseFmtDMY (cs : List Char) : Option ℤ :=
  match cs.splitOn ' ' with
  | [ds, ms, ys] => do
    let dv ← digitsBetween 1 2 ds
    let mv ← monthOfWord ms
    let yv ← digitsBetween 1 4 ys
    epochIfValid (yv : ℤ) mv (dv : ℤ)
  | _ => none

/-- Embedding of strptime with format month day, year (%b %d, %Y and
%B %d, %Y). -/
def parseFmtMDY (cs : List Char) : Option ℤ :=
  match cs.splitOn ' ' with
  | [ms, dcs, ys] => do
    let mv ← monthOfWord ms
    let dv ←
      match dcs.reverse with
      | ',' :: revd => digitsBetween 1 2 revd.reverse
      | _ => none
    let yv ← digitsBetween 1 4 ys
    epochIfValid (yv : ℤ) mv (dv : ℤ)
  | _ => none

/-- Embedding of strptime with format %m/%d/%Y. -/
def parseFmtSlash (cs : List Char) : Option ℤ :=
  match cs.splitOn '/' with
  | [ms, ds, ys] => do
    let mv ← digitsBetween 1 2 ms
    let dv ← digitsBetween 1 2 ds
    let yv ← digitsBetween 1 4 ys
    epochIfValid (yv : ℤ) (mv : ℤ) (dv : ℤ)
  | _ => none

/-- Embedding of strptime with format %Y-%m-%d, which unlike
fromisoformat accepts unpadded month and day fields. -/
def parseFmtDash (cs : List Char) : Option ℤ :=
  match cs.splitOn '-' with
  | [ys, ms, ds] => do
    let yv ← digitsBetween 1 4 ys
    let mv ← digitsBetween 1 2 ms
    let dv ← digitsBetween 1 2 ds
    epochIfValid (yv : ℤ) (mv : ℤ) (dv : ℤ)
  | _ => none

/-- Embedding of _parse_date_to_epoch (src/retrieval/hybrid_search.py
lines 166-198): falsy values and the sentinels unknown, n/a, na, none
give None; then fromisoformat with Z expansion; then the strptime
format list. -/
def parse_date_to_epoch (v : Option MetaVal) : Option ℤ :=
  match v with
  | none => none
  | some mv =>
    if !truthy mv then none
    else
      let s := pyStrip (pyStr mv)
      if s = "" ∨ pyLower s = "unknown" ∨ pyLower s = "n/a" ∨ pyLower s = "na" ∨ pyLower s = "none" then none
      else
        match parseISO s.data with
        | some e => some e
        | none =>
          match parseFmtDash s.data with
          | some e => some e
          | none =>
            match parseFmtDMY s.data with
            | some e => some e
            | none =>
              match parseFmtMDY s.data with
              | some e => some e
              | none => parseFmtSlash s.data

example : parse_date_to_epoch (some (.str "1970-01-02")) = some 86400 := by decide
example : parse_date_to_epoch (some (.str "Unknown")) = none := by decide
example : parse_date_to_epoch (some (.str "2 Jan 1970")) = some 86400 := by decide
example : parse_date_to_epoch (some (.str "Jan 2, 1970")) = some 86400 := by decide
example : parse_date_to_epoch (some (.str "01/02/1970")) = some 86400 := by decide
example : parse_date_to_epoch (some (.str "1970-01-01T00:01:00Z")) = some 60 := by decide
example : parse_date_to_epoch none = none := by decide

/-- Python or on two optional epoch values, where a parsed epoch of 0.0
is falsy and falls through to the second operand. -/
def pyOrEpoch (a b : Option ℤ) : Option ℤ :=
  match a with
  | some x => if x = 0 then b else some x
  | none => b

/-- Embedding of _recency_key (src/retrieval/hybrid_search.py lines
201-213): primary parsed date epoch from date, falling back to moddate
or creationdate, secondary year integer; missing parts default to 0. -/
def recency_key (d : Doc) : ℤ × ℤ :=
  let md := d.metadata
  let epoch :=
    match parse_date_to_epoch (mdGet md "date") with
    | some e => some e
    | none => pyOrEpoch (parse_date_to_epoch (mdGet md "moddate")) (parse_date_to_epoch (mdGet md "creationdate"))
  let y :=
    match safeInt (mdGet md "year") with
    | some n => if n = 0 then 0 else n
    | none => 0
  (epoch.getD 0, y)

/-- Embedding of _doc_identity (src/retrieval/hybrid_search.py lines
216-226): first nonempty stripped string among doc_id, url, id,
document_id, source; fallback the first 300 characters of content. -/
def doc_identity (d : Doc) : String :=
  let md := d.metadata
  let pick (k : String) : Option String :=
    match mdGet md k with
    | some (.str v) => if pyStrip v = "" then none else some (pyStrip v)
    | _ => none
  match pick "doc_id" with
  | some v => v
  | none =>
    match pick "url" with
    | some v => v
    | none =>
      match pick "id" with
      | some v => v
      | none =>
        match pick "document_id" with
        | some v => v
        | none =>
          match pick "source" with
          | some v => v
          | none => String.mk (d.page_content.data.take 300)

/-
Latest-intent detection (src/retrieval/hybrid_search.py lines 53-55 and
160-163).  The regex matches, case-insensitively and between word
boundaries, one of: latest, recent, newest, current, most recent (with
any whitespace run), up to date (with optional hyphen or whitespace
separators).
-/

/-- Word character for the regex word boundary: letter, digit or underscore. -/
def isWordChar (c : Char) : Bool := c.isAlphanum || c == '_'

/-- Consume an exact literal from the character stream. -/
def eatLit : List Char → List Char → Option (List Char)
  | [], cs => some cs
  | _ :: _, [] => none
  | p :: ps, c :: cs => if p = c then eatLit ps cs else none

/-- Consume one or more whitespace characters. -/
def eatWS1 (cs : List Char) : Option (List Char) :=
  match cs with
  | c :: rest => if c.isWhitespace then some (dropWS rest) else none
  | [] => none

/-- Consume at most one hyphen or whitespace character. -/
def eatSepOpt (cs : List Char) : List Char :=
  match cs with
  | c :: rest => if c = '-' ∨ c.isWhitespace then rest else cs
  | [] => []

/-- Try each alternative of the latest-intent regex at this position,
returning the remainder after the match.  The alternatives begin with
pairwise distinct characters, so at most one can match. -/
def latestAlt (cs : List Char) : Option (List Char) :=
  match eatLit "latest".data cs with
  | some r => some r
  | none =>
  match eatLit "recent".data cs with
  | some r => some r
  | none =>
  match eatLit "newest".data cs with
  | some r => some r
  | none =>
  match eatLit "current".data cs with
  | some r => some r
  | none =>
  match (do
    let r ← eatLit "most".data cs
    let r ← eatWS1 r
    eatLit "recent".data r) with
  | some r => some r
  | none => do
    let r ← eatLit "up".data cs
    let r := eatSepOpt r
    let r ← eatLit "to".data r
    let r := eatSepOpt r
    eatLit "date".data r

/-- Check whether an alternative matches at this position with a word
boundary on the right. -/
def latestAt (cs : List Char) : Bool :=
  match latestAlt cs with
  | some rest =>
    match rest with
    | [] => true
    | c :: _ => !isWordChar c
  | none => false

/-- Scan the string for a boundary-delimited match of the latest-intent
pattern; prevWord records whether the previous character was a word
character (left word boundary). -/
def latestScan : List Char → Bool → Bool
  | [], _ => false
  | c :: rest, prevWord =>
    (!prevWord && latestAt (c :: rest)) || latestScan rest (isWordChar c)

/-- Embedding of the _LATEST_RE search over a lower-cased query. -/
def latestSearch (s : String) : Bool := latestScan (pyLower s).data false

example : latestSearch "What is the LATEST rate policy?" = true := by decide
example : latestSearch "most  recent rules" = true := by decide
example : latestSearch "up-to-date guidance" = true := by decide
example : latestSearch "currently recentish" = false := by decide
example : latestSearch "nothing here" = false := by decide

/-
Filter normalization (src/retrieval/hybrid_search.py lines 58-163).
-/

/-- Value of one list-typed filter field: absent, a scalar, or a list. -/
inductive FilterField where
  | absent
  | one (v : MetaVal)
  | many (vs : List MetaVal)
deriving DecidableEq

/-- Value of the year filter: absent, a scalar, or a range dictionary
with optional gte and lte entries. -/
inductive YearFilter where
  | absent
  | value (v : MetaVal)
  | range (gte lte : Option MetaVal)
deriving DecidableEq

/-- Filter request dictionary, with the keys read by the engine. -/
structure Filters where
  regulators : FilterField := .absent
  categories : FilterField := .absent
  types : FilterField := .absent
  jurisdiction : Option MetaVal := none
  spiders : FilterField := .absent
  source_types : FilterField := .absent
  year : YearFilter := .absent
  sort : Option MetaVal := none
deriving DecidableEq

/-- Embedding of _normalize_list (lines 58-63): None stays None, an
empty list becomes None, a nonempty list is kept, a scalar is wrapped. -/
def normalize_list : FilterField → Option (List MetaVal)
  | .absent => none
  | .many [] => none
  | .many vs => some vs
  | .one v => some [v]

/-- Predicate tree handed to the document store, mirroring the Chroma
where dictionaries built by the engine. -/
inductive WhereCond where
  | eqc (field : String) (v : MetaVal)
  | inc (field : String) (vs : List MetaVal)
  | rangec (field : String) (gte lte : Option ℤ)
  | orc (conds : List WhereCond)
  | andc (conds : List WhereCond)

/-- List of the consecutive integers from a to b inclusive, the model of
Python range(a, b + 1). -/
def intRange (a b : ℤ) : List ℤ :=
  (List.range (b + 1 - a).toNat).map (fun (i : ℕ) => a + (i : ℤ))

/-- Embedding of _build_year_condition (src/retrieval/hybrid_search.py
lines 73-108).  A scalar year that parses as an integer yields an OR of
the integer and its stripped string rendering; a range dictionary yields
a numeric range predicate OR an explicit list of string years.  The
years list follows the elif chain of lines 92-97: the gte..lte window
requires lte at least gte, otherwise the chain falls through to the
lower-bound branch gte..gte+5 whenever gte is present. -/
def build_year_condition : YearFilter → Option WhereCond
  | .absent => none
  | .range g l =>
    let gte := safeInt g
    let lte := safeInt l
    match gte, lte with
    | none, none => none
    | _, _ =>
      let years : List ℤ :=
        match gte, lte with
        | some gv, some lv => if gv ≤ lv then intRange gv lv else intRange gv (gv + 5)
        | some gv, none => intRange gv (gv + 5)
        | none, some lv => intRange (max 1900 (lv - 5)) lv
        | none, none => []
      let orParts : List WhereCond :=
        [.rangec "year" gte lte] ++
          (if years = [] then [] else [.inc "year" (years.map (fun y => .str (toString y)))])
      some (.orc orParts)
  | .value v =>
    let yInt := safeIntVal v
    let yStr := pyStrip (pyStr v)
    match yInt with
    | some n => some (.orc [.eqc "year" (.int n), .eqc "year" (.str yStr)])
    | none => if yStr = "" then none else some (.eqc "year" (.str yStr))

/-- Embedding of _build_where (src/retrieval/hybrid_search.py lines
111-157): IN conditions for the set-valued fields, an equality for
jurisdiction, the tolerant year condition; a single condition is
returned bare, several are wrapped in AND. -/
def build_where (filters : Option Filters) : Option WhereCond :=
  match filters with
  | none => none
  | some f =>
    let conditions : List WhereCond :=
      (match normalize_list f.regulators with
       | some vs => [WhereCond.inc "regulator" vs]
       | none => []) ++
      (match normalize_list f.categories with
       | some vs => [WhereCond.inc "category" vs]
       | none => []) ++
      (match normalize_list f.types with
       | some vs => [WhereCond.inc "type" vs]
       | none => []) ++
      (match f.jurisdiction with
       | some j => if truthy j then [WhereCond.eqc "jurisdiction" j] else []
       | none => []) ++
      (match normalize_list f.spiders with
       | some vs => [WhereCond.inc "spider" vs]
       | none => []) ++
      (match normalize_list f.source_types with
       | some vs => [WhereCond.inc "source_type" vs]
       | none => []) ++
      (match build_year_condition f.year with
       | some c => [c]
       | none => [])
    match conditions with
    | [] => none
    | [c] => some c
    | cs => some (.andc cs)

/-- Embedding of _wants_latest (src/retrieval/hybrid_search.py lines
160-163): an explicit sort latest hint, else the regex search over the
query. -/
def wants_latest (query : String) (filters : Option Filters) : Bool :=
  (match filters with
   | some f => pyLower (pyStr ((f.sort).getD (.str ""))) == "latest"
   | none => false)
  || latestSearch query

mutual
/-- Modelled from the spec: the document store is an external
collaborator whose bulk_scan and similarity_search accept a filter
predicate; this is the standard semantics of the predicate tree over a
metadata record (OR is any, AND is all, IN is membership, equality is
typed scalar equality, numeric ranges apply to numeric values only). -/
def evalWhere : WhereCond → Metadata → Bool
  | .eqc f v, md => mdGet md f == some v
  | .inc f vs, md =>
    match mdGet md f with
    | some x => vs.contains x
    | none => false
  | .rangec f g l, md =>
    match mdGet md f with
    | some (.int n) =>
      (match g with | some gv => decide (gv ≤ n) | none => true) &&
      (match l with | some lv => decide (n ≤ lv) | none => true)
    | some (.float q) =>
      (match g with | some gv => decide ((gv : ℚ) ≤ q) | none => true) &&
      (match l with | some lv => decide (q ≤ (lv : ℚ)) | none => true)
    | _ => false
  | .orc cs, md => evalWhereAny cs md
  | .andc cs, md => evalWhereAll cs md

/-- Disjunction of a predicate list over a metadata record. -/
def evalWhereAny : List WhereCond → Metadata → Bool
  | [], _ => false
  | c :: cs, md => evalWhere c md || evalWhereAny cs md

/-- Conjunction of a predicate list over a metadata record. -/
def evalWhereAll : List WhereCond → Metadata → Bool
  | [], _ => true
  | c :: cs, md => evalWhere c md && evalWhereAll cs md
end

example :
    build_year_condition (.value (.int 2024)) =
      some (.orc [.eqc "year" (.int 2024), .eqc "year" (.str "2024")]) := by rfl
example :
    evalWhere (.orc [.eqc "year" (.int 2024), .eqc "year" (.str "2024")])
      [("year", .str "2024")] = true := by decide
example : wants_latest "x" (some { sort := some (.str "Latest") }) = true := by decide

/-
Stable descending sort.  Python sorted(..., reverse=True) and
list.sort(..., reverse=True) are stable: elements comparing equal keep
their original relative order.  Insertion sort from the right with the
strict-or-equal test below realizes exactly that semantics: ge x y means
the key of x is at least the key of y, and an earlier element is placed
before any later element with an equal key.
-/

/-- Insert x before the first element whose key it reaches or exceeds. -/
def insDesc (ge : α → α → Bool) (x : α) : List α → List α
  | [] => [x]
  | y :: ys => if ge x y then x :: y :: ys else y :: insDesc ge x ys

/-- Stable descending sort by repeated insertion. -/
def sortDesc (ge : α → α → Bool) (l : List α) : List α := l.foldr (insDesc ge) []

theorem mem_insDesc (ge : α → α → Bool) (x : α) (l : List α) (z : α) :
    z ∈ insDesc ge x l ↔ z = x ∨ z ∈ l := by
  induction l with
  | nil => simp [insDesc]
  | cons y ys ih =>
    simp only [insDesc]
    by_cases h : ge x y = true
    · rw [if_pos h]
      simp [List.mem_cons]
    · rw [if_neg h]
      simp only [List.mem_cons, ih]
      tauto

theorem insDesc_pairwise (ge : α → α → Bool)
    (total : ∀ a b, ge a b = true ∨ ge b a = true)
    (trans : ∀ a b c, ge a b = true → ge b c = true → ge a c = true)
    (x : α) (l : List α) (h : l.Pairwise (fun a b => ge a b = true)) :
    (insDesc ge x l).Pairwise (fun a b => ge a b = true) := by
  induction l with
  | nil => simp [insDesc]
  | cons y ys ih =>
    rcases h with _ | ⟨hy, hys⟩
    simp only [insDesc]
    by_cases hxy : ge x y = true
    · rw [if_pos hxy]
      refine List.Pairwise.cons ?_ (List.Pairwise.cons hy hys)
      intro z hz
      rcases List.mem_cons.mp hz with rfl | hz
      · exact hxy
      · exact trans x y z hxy (hy z hz)
    · rw [if_neg hxy]
      refine List.Pairwise.cons ?_ (ih hys)
      intro z hz
      rcases (mem_insDesc ge x ys z).mp hz with hzx | hz
      · subst hzx
        rcases total z y with h1 | h1
        · exact absurd h1 hxy
        · exact h1
      · exact hy z hz

theorem sortDesc_pairwise (ge : α → α → Bool)
    (total : ∀ a b, ge a b = true ∨ ge b a = true)
    (trans : ∀ a b c, ge a b = true → ge b c = true → ge a c = true)
    (l : List α) :
    (sortDesc ge l).Pairwise (fun a b => ge a b = true) := by
  induction l with
  | nil => simp [sortDesc]
  | cons y ys ih => exact insDesc_pairwise ge total trans y (sortDesc ge ys) ih

theorem mem_sortDesc (ge : α → α → Bool) (l : List α) (z : α) :
    z ∈ sortDesc ge l ↔ z ∈ l := by
  induction l with
  | nil => simp [sortDesc]
  | cons y ys ih =>
    show z ∈ insDesc ge y (sortDesc ge ys) ↔ _
    rw [mem_insDesc]
    simp [ih]

/-- An element strictly dominating every other element of the list comes
first in the stable descending sort. -/
theorem sortDesc_head_of_strict_max (ge : α → α → Bool)
    (total : ∀ a b, ge a b = true ∨ ge b a = true)
    (l : List α) (e : α) (he : e ∈ l)
    (hmax : ∀ y ∈ l, y = e ∨ (ge e y = true ∧ ge y e = false)) :
    (sortDesc ge l).head? = some e := by
  induction l with
  | nil => cases he
  | cons z zs ih =>
    show (insDesc ge z (sortDesc ge zs)).head? = some e
    rcases List.mem_cons.mp he with rfl | hezs
    · have hge : ∀ y ∈ sortDesc ge zs, ge e y = true := by
        intro y hy
        have hy2 : y ∈ zs := (mem_sortDesc ge zs y).mp hy
        rcases hmax y (List.mem_cons_of_mem _ hy2) with rfl | ⟨h1, _⟩
        · rcases total y y with h | h <;> exact h
        · exact h1
      cases hs : sortDesc ge zs with
      | nil => simp [insDesc]
      | cons y ys =>
        have : ge e y = true := hge y (by rw [hs]; exact List.mem_cons_self y ys)
        simp [insDesc, this]
    · have hz : z = e ∨ (ge e z = true ∧ ge z e = false) := hmax z (List.mem_cons_self z zs)
      rcases hz with rfl | ⟨_, hze⟩
      · -- the head equals e, and e is also in the tail; insert e in front
        have hge : ∀ y ∈ sortDesc ge zs, ge z y = true := by
          intro y hy
          have hy2 : y ∈ zs := (mem_sortDesc ge zs y).mp hy
          rcases hmax y (List.mem_cons_of_mem _ hy2) with rfl | ⟨h1, _⟩
          · rcases total y y with h | h <;> exact h
          · exact h1
        cases hs : sortDesc ge zs with
        | nil => simp [insDesc]
        | cons y ys =>
          have : ge z y = true := hge y (by rw [hs]; exact List.mem_cons_self y ys)
          simp [insDesc, this]
      · have ihh : (sortDesc ge zs).head? = some e := by
          refine ih hezs ?_
          intro y hy
          exact hmax y (List.mem_cons_of_mem _ hy)
        cases hs : sortDesc ge zs with
        | nil => rw [hs] at ihh; cases ihh
        | cons y ys =>
          rw [hs] at ihh
          have hye : y = e := by simpa using ihh
          subst hye
          simp [insDesc, hze]

/-- Head of a prefix of positive length. -/
theorem head?_take {l : List α} {n : ℕ} (h : 1 ≤ n) : (l.take n).head? = l.head? := by
  cases l with
  | nil => simp
  | cons x xs =>
    cases n with
    | zero => omega
    | succ m => simp [List.take]

/-
Weighted Reciprocal Rank Fusion (src/retrieval/hybrid_search.py lines
229-249).  The Python dictionaries rrf_score (a defaultdict of floats)
and doc_map gain a key at the same moment, the first time an identifier
is seen, and items() iterates in insertion order; the pair of
dictionaries is therefore modelled as one association list of entries
(identifier, first document, accumulated score) in insertion order.
-/

/-- Entry of the fused state: identifier, retained document, score. -/
abbrev REntry := String × Doc × ℚ

/-- Smoothing constant RRF_K of the source (line 51). -/
def RRF_K : ℚ := 60

/-- Contributions of one ranked list: the document at 1-indexed rank r
contributes weight times 1 / (RRF_K + r), mirroring the inner loop
enumerate(docs, start=1). -/
def enumContribsFrom (w : ℚ) (r : ℚ) : List Doc → List REntry
  | [] => []
  | d :: ds => (doc_identity d, d, w * (1 / (RRF_K + r))) :: enumContribsFrom w (r + 1) ds

/-- Contributions of both sources in processing order: the bm25 list
with weights[0] first, then the vector list with weights[1] (line 239). -/
def rrfContribs (bm25_results vector_results : List Doc) (bw vw : ℚ) : List REntry :=
  enumContribsFrom bw 1 bm25_results ++ enumContribsFrom vw 1 vector_results

/-- One loop iteration on the dictionary state: accumulate the score on
an existing key, keeping the first stored document, or append a new key. -/
def rrfUpsert : List REntry → REntry → List REntry
  | [], c => [c]
  | e :: rest, c =>
    if e.1 = c.1 then (e.1, e.2.1, e.2.2 + c.2.2) :: rest else e :: rrfUpsert rest c

/-- Dictionary state after the double loop of apply_rrf. -/
def fuseState (bm25_results vector_results : List Doc) (bw vw : ℚ) : List REntry :=
  (rrfContribs bm25_results vector_results bw vw).foldl rrfUpsert []

/-- Comparison used by sorted(rrf_score.items(), key=score, reverse):
stable descending by score. -/
def entryGe (e1 e2 : REntry) : Bool := decide (e2.2.2 ≤ e1.2.2)

/-- Embedding of apply_rrf (src/retrieval/hybrid_search.py lines
229-249): fuse the two ranked lists, sort the state by descending score
(stable, hence insertion order on ties), truncate, return documents. -/
def apply_rrf (vector_results bm25_results : List Doc) (weights : ℚ × ℚ) (limit : ℕ) :
    List Doc :=
  ((sortDesc entryGe (fuseState bm25_results vector_results weights.1 weights.2)).take
      limit).map (fun e => e.2.1)

/-- Cumulative RRF score of an identifier: the sum of the contributions
carrying that identifier, following the words of the specification. -/
def scoreOf (cs : List REntry) (k : String) : ℚ :=
  ((cs.filter (fun e => e.1 == k)).map (fun e => e.2.2)).sum

/-- Deduplicated score table in first-occurrence order, following the
words of the specification: documents are deduplicated by identifier,
the first occurrence is retained, and scores accumulate additively. -/
def specState : List REntry → List REntry
  | [] => []
  | c :: rest =>
    (c.1, c.2.1, c.2.2 + scoreOf rest c.1) :: specState (rest.filter (fun e => !(e.1 == c.1)))
termination_by cs => cs.length
decreasing_by
  simp only [List.length_cons]
  exact Nat.lt_succ_of_le (List.length_filter_le _ _)

/-- Reading of the fusion contract with the corrected tie-break: sorted
by descending cumulative score, stable on ties (first-occurrence order),
truncated to the limit. -/
def rrf_fusion_spec (vector_results bm25_results : List Doc) (weights : ℚ × ℚ)
    (limit : ℕ) : List Doc :=
  ((sortDesc entryGe
        (specState (rrfContribs bm25_results vector_results weights.1 weights.2))).take
      limit).map (fun e => e.2.1)

/-- Lexicographic order on character lists by code point. -/
def charListLe : List Char → List Char → Bool
  | [], _ => true
  | _ :: _, [] => false
  | a :: as, b :: bs =>
    if a.toNat < b.toNat then true
    else if b.toNat < a.toNat then false
    else charListLe as bs

/-- Lexicographic order on identifiers. -/
def strLe (a b : String) : Bool := charListLe a.data b.data

/-- Comparison for the claimed tie-break: descending score, ties broken
by ascending identifier. -/
def entryGeId (e1 e2 : REntry) : Bool :=
  decide (e2.2.2 < e1.2.2) || (decide (e1.2.2 = e2.2.2) && strLe e1.1 e2.1)

/-- Reading of the fusion contract exactly as claimed: sorted by
descending cumulative score with ties broken by identifier. -/
def rrf_fusion_spec_id_ties (vector_results bm25_results : List Doc) (weights : ℚ × ℚ)
    (limit : ℕ) : List Doc :=
  ((sortDesc entryGeId
        (specState (rrfContribs bm25_results vector_results weights.1 weights.2))).take
      limit).map (fun e => e.2.1)

theorem scoreOf_nil (k : String) : scoreOf [] k = 0 := rfl

theorem scoreOf_cons (e : REntry) (l : List REntry) (k : String) :
    scoreOf (e :: l) k = (if e.1 = k then e.2.2 else 0) + scoreOf l k := by
  by_cases h : e.1 = k
  · simp [scoreOf, List.filter_cons, h]
  · simp [scoreOf, List.filter_cons, h]

theorem scoreOf_append (l1 l2 : List REntry) (k : String) :
    scoreOf (l1 ++ l2) k = scoreOf l1 k + scoreOf l2 k := by
  simp [scoreOf, List.filter_append]

theorem scoreOf_filter_ne (l : List REntry) (k k0 : String) (h : k ≠ k0) :
    scoreOf (l.filter (fun e => !(e.1 == k0))) k = scoreOf l k := by
  induction l with
  | nil => rfl
  | cons e es ih =>
    by_cases he : e.1 = k0
    · have : e.1 ≠ k := by rw [he]; exact fun hk => h hk.symm
      simp [List.filter_cons, he, scoreOf_cons, this, ih]
      exact fun hk => absurd hk.symm h
    · simp [List.filter_cons, he, scoreOf_cons, ih]

/-- Dictionary update for a fresh key appends the entry at the end,
mirroring Python dict insertion order. -/
theorem rrfUpsert_notMem (st : List REntry) (c : REntry)
    (h : c.1 ∉ st.map (fun e => e.1)) : rrfUpsert st c = st ++ [c] := by
  induction st with
  | nil => rfl
  | cons e es ih =>
    have h1 : e.1 ≠ c.1 := by
      intro hh
      exact h (by simp [hh])
    have h2 : c.1 ∉ es.map (fun e => e.1) := by
      intro hh
      exact h (by simp [hh])
    simp [rrfUpsert, h1, ih h2]

/-- Key step: updating the deduplicated score table with one more
contribution equals the table of the extended contribution list. -/
theorem rrfUpsert_specState (b : REntry) :
    ∀ cs : List REntry, rrfUpsert (specState cs) b = specState (cs ++ [b]) := by
  intro cs
  induction cs using specState.induct with
  | case1 =>
    simp [specState, rrfUpsert, scoreOf_nil]
  | case2 a rest ih =>
    rw [specState]
    by_cases h : a.1 = b.1
    · have hbf : (rest ++ [b]).filter (fun e => !(e.1 == a.1)) =
          rest.filter (fun e => !(e.1 == a.1)) := by
        simp [List.filter_append, h.symm]
      have hsc : scoreOf (rest ++ [b]) a.1 = scoreOf rest a.1 + b.2.2 := by
        rw [scoreOf_append, scoreOf_cons, scoreOf_nil]
        simp [← h]
      show (if a.1 = b.1 then _ else _) = _
      rw [if_pos h, List.cons_append, specState, hbf, hsc]
      simp [add_assoc]
    · have hbf : (rest ++ [b]).filter (fun e => !(e.1 == a.1)) =
          rest.filter (fun e => !(e.1 == a.1)) ++ [b] := by
        have : (b.1 == a.1) = false := by
          simp
          exact fun hh => h hh.symm
        simp [List.filter_append, this]
      have hsc : scoreOf (rest ++ [b]) a.1 = scoreOf rest a.1 := by
        rw [scoreOf_append, scoreOf_cons, scoreOf_nil]
        have : b.1 ≠ a.1 := fun hh => h hh.symm
        simp [this]
      show (if a.1 = b.1 then _ else _) = _
      rw [if_neg h, List.cons_append, specState, hbf, hsc, ih]

/-- The dictionary built by the double loop of apply_rrf is exactly the
deduplicated score table described by the specification. -/
theorem fuseState_eq_specState (cs : List REntry) :
    cs.foldl rrfUpsert [] = specState cs := by
  induction cs using List.reverseRecOn with
  | nil => simp [specState]
  | append_singleton l c ih =>
    rw [List.foldl_append, List.foldl_cons, List.foldl_nil, ih, rrfUpsert_specState]

/-- Claim C1, amended: the output of apply_rrf equals the weighted
Reciprocal Rank Fusion specification in which each document at 1-indexed
rank r contributes weight / (60 + r), documents are deduplicated by
stable identifier with the first occurrence retained and scores summed,
and the output is sorted by descending cumulative score and truncated to
the limit, with ties broken by first-occurrence order (bm25 list before
vector list) rather than by identifier. -/
theorem C1_apply_rrf_matches_weighted_rrf_spec
    (vector_results bm25_results : List Doc) (weights : ℚ × ℚ) (limit : ℕ) :
    apply_rrf vector_results bm25_results weights limit =
      rrf_fusion_spec vector_results bm25_results weights limit := by
  simp only [apply_rrf, rrf_fusion_spec, fuseState, fuseState_eq_specState]

/-- First document of the C1 tie-break counterexample, identifier a. -/
def docCexA : Doc := ⟨"alpha body", [("doc_id", .str "a")]⟩

/-- Second document of the C1 tie-break counterexample, identifier b. -/
def docCexB : Doc := ⟨"beta body", [("doc_id", .str "b")]⟩

theorem sortDesc_pair_true (ge : α → α → Bool) (e1 e2 : α) (h : ge e1 e2 = true) :
    sortDesc ge [e1, e2] = [e1, e2] := by
  show (if ge e1 e2 = true then e1 :: [e2] else e2 :: insDesc ge e1 []) = [e1, e2]
  rw [if_pos h]

theorem sortDesc_pair_false (ge : α → α → Bool) (e1 e2 : α) (h : ge e1 e2 = false) :
    sortDesc ge [e1, e2] = [e2, e1] := by
  show (if ge e1 e2 = true then e1 :: [e2] else e2 :: insDesc ge e1 []) = [e2, e1]
  rw [if_neg (by simp [h])]
  rfl

/-- Claim C1 as stated is false: with equal weights, the document ranked
first in the bm25 list and the document ranked first in the vector list
tie on cumulative score, and apply_rrf orders the bm25 document first
(insertion order), not the identifier-minimal document. -/
theorem C1_tie_break_counterexample :
    apply_rrf [docCexA] [docCexB] (1, 1) 2 = [docCexB, docCexA] ∧
    rrf_fusion_spec_id_ties [docCexA] [docCexB] (1, 1) 2 = [docCexA, docCexB] ∧
    apply_rrf [docCexA] [docCexB] (1, 1) 2 ≠
      rrf_fusion_spec_id_ties [docCexA] [docCexB] (1, 1) 2 := by
  have hfuse : fuseState [docCexB] [docCexA] 1 1 =
      [("b", docCexB, 1 * (1 / (RRF_K + 1))), ("a", docCexA, 1 * (1 / (RRF_K + 1)))] := by
    rfl
  have hcontribs : rrfContribs [docCexB] [docCexA] 1 1 =
      [("b", docCexB, 1 * (1 / (RRF_K + 1))), ("a", docCexA, 1 * (1 / (RRF_K + 1)))] := by
    rfl
  have hspec : specState
      [("b", docCexB, 1 * (1 / (RRF_K + 1))), ("a", docCexA, 1 * (1 / (RRF_K + 1)))] =
      [("b", docCexB, 1 * (1 / (RRF_K + 1))), ("a", docCexA, 1 * (1 / (RRF_K + 1)))] := by
    simp [specState, scoreOf]
  have hstr : strLe "b" "a" = false := by decide
  have h1 : apply_rrf [docCexA] [docCexB] (1, 1) 2 = [docCexB, docCexA] := by
    show ((sortDesc entryGe (fuseState [docCexB] [docCexA] 1 1)).take 2).map
        (fun e => e.2.1) = _
    rw [hfuse, sortDesc_pair_true entryGe _ _ (by simp [entryGe])]
    rfl
  have h2 : rrf_fusion_spec_id_ties [docCexA] [docCexB] (1, 1) 2 =
      [docCexA, docCexB] := by
    show ((sortDesc entryGeId (specState (rrfContribs [docCexB] [docCexA] 1 1))).take 2).map
        (fun e => e.2.1) = _
    rw [hcontribs, hspec, sortDesc_pair_false entryGeId _ _ (by simp [entryGeId, hstr])]
    rfl
  exact ⟨h1, h2, by rw [h1, h2]; decide⟩

theorem scoreOf_enumFrom_zero (w : ℚ) (ds : List Doc) (k : String) :
    ∀ r : ℚ, k ∉ ds.map doc_identity → scoreOf (enumContribsFrom w r ds) k = 0 := by
  induction ds with
  | nil => intro r _; rfl
  | cons d ds ih =>
    intro r h
    simp only [List.map_cons, List.mem_cons, not_or] at h
    obtain ⟨h1, h2⟩ := h
    have hne : doc_identity d ≠ k := fun hh => h1 hh.symm
    simp only [enumContribsFrom, scoreOf_cons, if_neg hne, zero_add]
    exact ih (r + 1) h2

theorem scoreOf_enumFrom_le (w : ℚ) (hw : 0 ≤ w) (ds : List Doc) (k : String) :
    ∀ r : ℚ, 2 ≤ r → (ds.map doc_identity).Nodup →
      scoreOf (enumContribsFrom w r ds) k ≤ w * (1 / 62) := by
  induction ds with
  | nil =>
    intro r _ _
    simp only [enumContribsFrom, scoreOf_nil]
    positivity
  | cons d ds ih =>
    intro r hr hnd
    simp only [List.map_cons, List.nodup_cons] at hnd
    obtain ⟨hd, hnd2⟩ := hnd
    simp only [enumContribsFrom, scoreOf_cons]
    by_cases hk : doc_identity d = k
    · have hz : scoreOf (enumContribsFrom w (r + 1) ds) k = 0 :=
        scoreOf_enumFrom_zero w ds k (r + 1) (hk ▸ hd)
      rw [if_pos hk, hz, add_zero]
      have h62 : (1 : ℚ) / (RRF_K + r) ≤ 1 / 62 := by
        apply one_div_le_one_div_of_le
        · norm_num
        · simp only [RRF_K]; linarith
      exact mul_le_mul_of_nonneg_left h62 hw
    · rw [if_neg hk, zero_add]
      exact ih (r + 1) (by linarith) hnd2

theorem specState_mem_key (cs : List REntry) (e : REntry) (he : e ∈ specState cs) :
    e.1 ∈ cs.map (fun x => x.1) := by
  induction cs using specState.induct with
  | case1 => simp [specState] at he
  | case2 a rest ih =>
    rw [specState] at he
    rcases List.mem_cons.mp he with rfl | h2
    · simp
    · have hx := ih h2
      simp only [List.mem_map] at hx ⊢
      obtain ⟨x, hxm, hxe⟩ := hx
      exact ⟨x, List.mem_cons_of_mem _ (List.mem_of_mem_filter hxm), hxe⟩

theorem specState_mem_key_ne (cs : List REntry) (k0 : String) (e : REntry)
    (he : e ∈ specState (cs.filter (fun x => !(x.1 == k0)))) : e.1 ≠ k0 := by
  have hx := specState_mem_key _ _ he
  simp only [List.mem_map] at hx
  obtain ⟨x, hxm, hxe⟩ := hx
  have hf := List.of_mem_filter hxm
  simp only [Bool.not_eq_eq_eq_not, Bool.not_true, beq_eq_false_iff_ne, ne_eq] at hf
  rw [← hxe]
  exact hf

theorem specState_mem_score (cs : List REntry) (e : REntry) (he : e ∈ specState cs) :
    e.2.2 = scoreOf cs e.1 := by
  induction cs using specState.induct with
  | case1 => simp [specState] at he
  | case2 a rest ih =>
    rw [specState] at he
    rcases List.mem_cons.mp he with rfl | h2
    · simp [scoreOf_cons]
    · have hne : e.1 ≠ a.1 := specState_mem_key_ne rest a.1 e h2
      rw [ih h2, scoreOf_filter_ne _ _ _ hne, scoreOf_cons,
        if_neg (fun h => hne h.symm), zero_add]

theorem specState_keys_nodup (cs : List REntry) :
    ((specState cs).map (fun e => e.1)).Nodup := by
  induction cs using specState.induct with
  | case1 => simp [specState]
  | case2 a rest ih =>
    rw [specState]
    simp only [List.map_cons, List.nodup_cons]
    refine ⟨?_, ih⟩
    intro hmem
    simp only [List.mem_map] at hmem
    obtain ⟨x, hxm, hxe⟩ := hmem
    exact specState_mem_key_ne rest a.1 x hxm hxe

theorem entryGe_total (e1 e2 : REntry) : entryGe e1 e2 = true ∨ entryGe e2 e1 = true := by
  simp only [entryGe, decide_eq_true_eq]
  exact le_total _ _

theorem entryGe_trans (a b c : REntry) :
    entryGe a b = true → entryGe b c = true → entryGe a c = true := by
  simp only [entryGe, decide_eq_true_eq]
  intro h1 h2
  exact h2.trans h1

theorem head?_map (f : α → β) (l : List α) : (l.map f).head? = l.head?.map f := by
  cases l <;> rfl

/-- Claim C2, amended: if within each input list identifiers are
pairwise distinct, the two lists are non-empty, the weights are
non-negative and not both zero, the limit is positive, and the same
identifier is ranked first in both lists, then the fused output of
apply_rrf ranks that document first: its cumulative score is strictly
the highest. -/
theorem C2_top_of_both_lists_tops_fusion
    (b0 v0 : Doc) (brest vrest : List Doc) (bw vw : ℚ) (limit : ℕ)
    (hid : doc_identity v0 = doc_identity b0)
    (hbnd : ((b0 :: brest).map doc_identity).Nodup)
    (hvnd : ((v0 :: vrest).map doc_identity).Nodup)
    (hbw : 0 ≤ bw) (hvw : 0 ≤ vw) (hpos : 0 < bw + vw) (hlim : 1 ≤ limit) :
    (apply_rrf (v0 :: vrest) (b0 :: brest) (bw, vw) limit).head? = some b0 := by
  simp only [List.map_cons, List.nodup_cons] at hbnd hvnd
  obtain ⟨hbmem, hbnd2⟩ := hbnd
  obtain ⟨hvmem, hvnd2⟩ := hvnd
  have hcs : rrfContribs (b0 :: brest) (v0 :: vrest) bw vw =
      (doc_identity b0, b0, bw * (1 / (RRF_K + 1))) ::
        (enumContribsFrom bw (1 + 1) brest ++
          ((doc_identity v0, v0, vw * (1 / (RRF_K + 1))) ::
            enumContribsFrom vw (1 + 1) vrest)) := rfl
  set k0 := doc_identity b0 with hk0
  set restC : List REntry :=
    enumContribsFrom bw (1 + 1) brest ++
      ((doc_identity v0, v0, vw * (1 / (RRF_K + 1))) ::
        enumContribsFrom vw (1 + 1) vrest) with hrestC
  have hscv : scoreOf restC k0 = vw * (1 / (RRF_K + 1)) := by
    rw [hrestC, scoreOf_append, scoreOf_cons,
      scoreOf_enumFrom_zero bw brest k0 (1 + 1) hbmem,
      scoreOf_enumFrom_zero vw vrest k0 (1 + 1) (by rw [← hid]; exact hvmem),
      if_pos hid]
    ring
  have hspec : specState (rrfContribs (b0 :: brest) (v0 :: vrest) bw vw) =
      (k0, b0, bw * (1 / (RRF_K + 1)) + scoreOf restC k0) ::
        specState (restC.filter (fun e => !(e.1 == k0))) := by
    rw [hcs, specState]
  set e0 : REntry := (k0, b0, bw * (1 / (RRF_K + 1)) + scoreOf restC k0) with he0
  have hscore0 : e0.2.2 = (bw + vw) * (1 / (RRF_K + 1)) := by
    rw [he0]
    show bw * (1 / (RRF_K + 1)) + scoreOf restC k0 = _
    rw [hscv]
    ring
  have hmax : ∀ y ∈ specState (rrfContribs (b0 :: brest) (v0 :: vrest) bw vw),
      y = e0 ∨ (entryGe e0 y = true ∧ entryGe y e0 = false) := by
    intro y hy
    rw [hspec] at hy
    rcases List.mem_cons.mp hy with rfl | hy2
    · exact Or.inl rfl
    · right
      have hyne : y.1 ≠ k0 := specState_mem_key_ne restC k0 y hy2
      have hysc : y.2.2 = scoreOf restC y.1 := by
        rw [specState_mem_score _ _ hy2, scoreOf_filter_ne _ _ _ hyne]
      have hybound : y.2.2 ≤ (bw + vw) * (1 / 62) := by
        rw [hysc, hrestC, scoreOf_append, scoreOf_cons,
          if_neg (fun h => hyne (by rw [← h, hid]))]
        have h1 := scoreOf_enumFrom_le bw hbw brest y.1 (1 + 1) (by norm_num) hbnd2
        have h2 := scoreOf_enumFrom_le vw hvw vrest y.1 (1 + 1) (by norm_num) hvnd2
        linarith
      have hlt : y.2.2 < e0.2.2 := by
        rw [hscore0]
        have : (bw + vw) * (1 / 62) < (bw + vw) * (1 / (RRF_K + 1)) := by
          apply mul_lt_mul_of_pos_left _ hpos
          rw [RRF_K]
          norm_num
        linarith
      constructor
      · simp only [entryGe, decide_eq_true_eq]
        exact le_of_lt hlt
      · simp only [entryGe, decide_eq_false_iff_not, not_le]
        exact hlt
  have hmem0 : e0 ∈ specState (rrfContribs (b0 :: brest) (v0 :: vrest) bw vw) := by
    rw [hspec]
    exact List.mem_cons_self _ _
  have hhead := sortDesc_head_of_strict_max entryGe entryGe_total _ e0 hmem0 hmax
  show (((sortDesc entryGe (fuseState (b0 :: brest) (v0 :: vrest) bw vw)).take limit).map
      (fun e => e.2.1)).head? = some b0
  rw [show fuseState (b0 :: brest) (v0 :: vrest) bw vw =
      specState (rrfContribs (b0 :: brest) (v0 :: vrest) bw vw) from
    fuseState_eq_specState _]
  rw [head?_map, head?_take hlim, hhead]
  rfl

/-- Witness for claim C2 amended: a concrete instantiation with the
same document first in both lists. -/
theorem C2_top_of_both_lists_tops_fusion_witness :
    (apply_rrf [docCexA] [docCexA, docCexB] (1, 1) 4).head? = some docCexA :=
  C2_top_of_both_lists_tops_fusion docCexA docCexA [docCexB] [] 1 1 4 rfl
    (by decide) (by decide) (by norm_num) (by norm_num) (by norm_num) (by norm_num)

/-- Claim C2 as stated is false: when one input list repeats an
identifier, a document ranked first in both lists can be outscored by
the accumulated contributions of the repeated document.  Here the bm25
list is A, B, B and the weights are one and zero, so A scores 1/61 while
B scores 1/62 plus 1/63, and the fused head is B. -/
theorem C2_duplicate_identifier_counterexample :
    (apply_rrf [docCexA] [docCexA, docCexB, docCexB] (1, 0) 4).head? = some docCexB ∧
    docCexB ≠ docCexA := by
  have hfuse : fuseState [docCexA, docCexB, docCexB] [docCexA] 1 0 =
      [("a", docCexA, 1 * (1 / (RRF_K + 1)) + 0 * (1 / (RRF_K + 1))),
       ("b", docCexB, 1 * (1 / (RRF_K + (1 + 1))) + 1 * (1 / (RRF_K + (1 + 1 + 1))))] := rfl
  have hge : entryGe ("a", docCexA, 1 * (1 / (RRF_K + 1)) + 0 * (1 / (RRF_K + 1)))
      ("b", docCexB, 1 * (1 / (RRF_K + (1 + 1))) + 1 * (1 / (RRF_K + (1 + 1 + 1)))) = false := by
    simp only [entryGe, RRF_K, decide_eq_false_iff_not, not_le]
    norm_num
  constructor
  · show (((sortDesc entryGe (fuseState [docCexA, docCexB, docCexB] [docCexA] 1 0)).take 4).map
        (fun e => e.2.1)).head? = some docCexB
    rw [hfuse, sortDesc_pair_false entryGe _ _ hge]
    rfl
  · decide

/-
The hybrid_search pipeline (src/retrieval/hybrid_search.py lines
252-362).  External collaborators are oracles in SearchEnv: the store
scan and similarity search, the BM25 retriever ranking, and the
reranker (none models compress_documents raising).  A raise inside the
try block is an error value of hybrid_search_body; the catch-all
handler of lines 360-362 turns it into an empty list.
-/

/-- Default HYBRID_TOP_K (line 42) with no environment override. -/
def DEFAULT_TOP_K : ℕ := 8

/-- Default HYBRID_BM25_WEIGHT (line 43). -/
def DEFAULT_BM25_WEIGHT : ℚ := 0.4

/-- Default HYBRID_VECTOR_WEIGHT (line 44). -/
def DEFAULT_VECTOR_WEIGHT : ℚ := 0.6

/-- Default HYBRID_CANDIDATE_MULTIPLIER (line 45). -/
def DEFAULT_CANDIDATE_MULTIPLIER : ℕ := 4

/-- Default HYBRID_BM25_POOL_LIMIT (line 48). -/
def DEFAULT_BM25_POOL_LIMIT : ℕ := 800

/-- Default HYBRID_LATEST_POOL (line 49). -/
def DEFAULT_LATEST_POOL : ℕ := 250

/-- Arguments of hybrid_search (lines 252-259). -/
structure SearchArgs where
  query : String
  k : Option ℕ := none
  bm25_weight : Option ℚ := none
  vector_weight : Option ℚ := none
  use_reranker : Bool := true
  filters : Option Filters := none

/-- Oracles for the external collaborators reached by hybrid_search. -/
structure SearchEnv where
  storeOk : Bool := true
  scan : Option WhereCond → ℕ → List String × List Metadata
  vectorSearch : String → ℕ → Option WhereCond → List Doc
  bm25Rank : List Doc → String → ℕ → List Doc
  cohereKey : Bool := false
  rerank : List Doc → String → ℕ → Option (List Doc)

/-- Effective top_k (line 260): k or DEFAULT_TOP_K, with 0 falsy. -/
def topKOf (a : SearchArgs) : ℕ :=
  match a.k with
  | none => DEFAULT_TOP_K
  | some n => if n = 0 then DEFAULT_TOP_K else n

/-- Effective weights (lines 261-264): clamp below at 0, and restore the
defaults when both are zero. -/
def weightsOf (a : SearchArgs) : ℚ × ℚ :=
  let bw := match a.bm25_weight with | none => DEFAULT_BM25_WEIGHT | some x => max 0 x
  let vw := match a.vector_weight with | none => DEFAULT_VECTOR_WEIGHT | some x => max 0 x
  if bw = 0 ∧ vw = 0 then (DEFAULT_BM25_WEIGHT, DEFAULT_VECTOR_WEIGHT) else (bw, vw)

/-- Candidate pool target (line 266). -/
def candidateKOf (a : SearchArgs) : ℕ :=
  max (topKOf a * DEFAULT_CANDIDATE_MULTIPLIER) (topKOf a)

/-- Latest mode flag (line 267). -/
def latestOf (a : SearchArgs) : Bool := wants_latest a.query a.filters

/-- Scan bound for the BM25 candidate pool (line 287). -/
def poolLimitOf (latest : Bool) (candidate_k : ℕ) : ℕ :=
  if latest then max DEFAULT_LATEST_POOL (candidate_k * 8) else DEFAULT_BM25_POOL_LIMIT

/-- Store scan feeding the BM25 pool (lines 289-300). -/
def scanOf (env : SearchEnv) (a : SearchArgs) : List String × List Metadata :=
  env.scan (build_where a.filters) (poolLimitOf (latestOf a) (candidateKOf a))

/-- Pool cleaning (lines 307-314): pad missing metadata with empty
dictionaries, keep documents with nonempty stripped content, strip it. -/
def cleanPool (docsRaw : List String) (metasRaw : List Metadata) : List Doc :=
  let metas := metasRaw ++ List.replicate (docsRaw.length - metasRaw.length) []
  ((docsRaw.zip metas).filter (fun p => !(pyStrip p.1 == ""))).map
    (fun p => ⟨pyStrip p.1, p.2⟩)

/-- Cleaned BM25 candidate pool of a search. -/
def poolOf (env : SearchEnv) (a : SearchArgs) : List Doc :=
  cleanPool (scanOf env a).1 (scanOf env a).2

/-- Descending comparison by recency key, the Python tuple order being
lexicographic: rkGe x y holds when the key of y is at most the key of x. -/
def rkGe (x y : Doc) : Bool :=
  decide ((recency_key y).1 < (recency_key x).1 ∨
    ((recency_key y).1 = (recency_key x).1 ∧ (recency_key y).2 ≤ (recency_key x).2))

theorem rkGe_total (x y : Doc) : rkGe x y = true ∨ rkGe y x = true := by
  simp only [rkGe, decide_eq_true_eq]
  omega

theorem rkGe_trans (x y z : Doc) :
    rkGe x y = true → rkGe y z = true → rkGe x z = true := by
  simp only [rkGe, decide_eq_true_eq]
  omega

/-- Latest-mode pre-sorted pool (lines 321-323): stable descending sort
by recency key, truncated again to the pool limit. -/
def rankedPoolOf (env : SearchEnv) (a : SearchArgs) : List Doc :=
  if latestOf a then
    (sortDesc rkGe (poolOf env a)).take (poolLimitOf (latestOf a) (candidateKOf a))
  else poolOf env a

/-- BM25 retrieval over the pool (lines 326-330), an oracle call. -/
def bm25ResultsOf (env : SearchEnv) (a : SearchArgs) : List Doc :=
  env.bm25Rank (rankedPoolOf env a) a.query (candidateKOf a)

/-- Vector retrieval (lines 281-284 and 331), an oracle call. -/
def vectorResultsOf (env : SearchEnv) (a : SearchArgs) : List Doc :=
  env.vectorSearch a.query (candidateKOf a) (build_where a.filters)

/-- Fusion result with the post-fusion latest re-sort (lines 334-343). -/
def fusedOf (env : SearchEnv) (a : SearchArgs) : List Doc :=
  let f0 := apply_rrf (vectorResultsOf env a) (bm25ResultsOf env a) (weightsOf a)
    (candidateKOf a)
  if latestOf a = true ∧ f0 ≠ [] then sortDesc rkGe f0 else f0

/-- Embedding of the try block of hybrid_search (lines 273-358): an
error value models an uncaught exception reaching the handler. -/
def hybrid_search_body (env : SearchEnv) (a : SearchArgs) : Except String (List Doc) :=
  if env.storeOk = false then .error "DB Initialization Error"
  else if (scanOf env a).1 = [] then .ok (vectorResultsOf env a)
  else if poolOf env a = [] then .ok (vectorResultsOf env a)
  else if a.use_reranker = true ∧ env.cohereKey = true ∧ fusedOf env a ≠ [] then
    match env.rerank (fusedOf env a) a.query (topKOf a) with
    | some reranked =>
      .ok ((if latestOf a = true ∧ reranked ≠ [] then sortDesc rkGe reranked
        else reranked).take (topKOf a))
    | none => .ok ((fusedOf env a).take (topKOf a))
  else .ok ((fusedOf env a).take (topKOf a))

/-- Embedding of hybrid_search (lines 252-362): the catch-all handler
maps any raise to an empty result list. -/
def hybrid_search (env : SearchEnv) (a : SearchArgs) : List Doc :=
  match hybrid_search_body env a with
  | .ok l => l
  | .error _ => []

theorem cleanPool_nil (metas : List Metadata) : cleanPool [] metas = [] := rfl

theorem hybrid_search_store_fail (env : SearchEnv) (a : SearchArgs)
    (h : env.storeOk = false) :
    hybrid_search_body env a = .error "DB Initialization Error" ∧
      hybrid_search env a = [] := by
  have hb : hybrid_search_body env a = .error "DB Initialization Error" := by
    simp [hybrid_search_body, h]
  exact ⟨hb, by simp [hybrid_search, hb]⟩

theorem hybrid_search_pool_empty (env : SearchEnv) (a : SearchArgs)
    (h1 : env.storeOk = true) (h2 : poolOf env a = []) :
    hybrid_search env a = vectorResultsOf env a := by
  by_cases hs : (scanOf env a).1 = []
  · simp [hybrid_search, hybrid_search_body, h1, hs]
  · simp [hybrid_search, hybrid_search_body, h1, hs, h2]

theorem hybrid_search_no_rerank (env : SearchEnv) (a : SearchArgs)
    (h1 : env.storeOk = true) (h2 : poolOf env a ≠ [])
    (h3 : ¬(a.use_reranker = true ∧ env.cohereKey = true ∧ fusedOf env a ≠ [])) :
    hybrid_search env a = (fusedOf env a).take (topKOf a) := by
  have hs : (scanOf env a).1 ≠ [] := by
    intro hs
    exact h2 (by rw [poolOf, hs, cleanPool_nil])
  simp [hybrid_search, hybrid_search_body, h1, hs, h2, h3]

theorem hybrid_search_rerank_fail (env : SearchEnv) (a : SearchArgs)
    (h1 : env.storeOk = true) (h2 : poolOf env a ≠ [])
    (h3 : a.use_reranker = true ∧ env.cohereKey = true ∧ fusedOf env a ≠ [])
    (h4 : env.rerank (fusedOf env a) a.query (topKOf a) = none) :
    hybrid_search env a = (fusedOf env a).take (topKOf a) := by
  have hs : (scanOf env a).1 ≠ [] := by
    intro hs
    exact h2 (by rw [poolOf, hs, cleanPool_nil])
  simp [hybrid_search, hybrid_search_body, h1, hs, h2, h3, h4]

theorem hybrid_search_rerank_ok (env : SearchEnv) (a : SearchArgs) (reranked : List Doc)
    (h1 : env.storeOk = true) (h2 : poolOf env a ≠ [])
    (h3 : a.use_reranker = true ∧ env.cohereKey = true ∧ fusedOf env a ≠ [])
    (h4 : env.rerank (fusedOf env a) a.query (topKOf a) = some reranked) :
    hybrid_search env a =
      (if latestOf a = true ∧ reranked ≠ [] then sortDesc rkGe reranked
        else reranked).take (topKOf a) := by
  have hs : (scanOf env a).1 ≠ [] := by
    intro hs
    exact h2 (by rw [poolOf, hs, cleanPool_nil])
  simp [hybrid_search, hybrid_search_body, h1, hs, h2, h3, h4]

/-- Claim C3, amended: in latest mode, on every return path that goes
through fusion (no reranker, reranker failure, reranker success), the
result of hybrid_search is sorted non-increasingly by recency key; the
vector-only fallback path, excluded here by the nonempty-pool
hypothesis, returns the vector order unsorted. -/
theorem C3_latest_mode_sorted_on_fused_paths (env : SearchEnv) (a : SearchArgs)
    (hstore : env.storeOk = true) (hlatest : latestOf a = true)
    (hpool : poolOf env a ≠ []) :
    List.Chain' (fun x y => rkGe x y = true) (hybrid_search env a) := by
  have hkey : ∀ l : List Doc,
      List.Chain' (fun x y => rkGe x y = true)
        ((if latestOf a = true ∧ l ≠ [] then sortDesc rkGe l else l).take (topKOf a)) := by
    intro l
    by_cases h : l = []
    · subst h
      simp
    · rw [if_pos ⟨hlatest, h⟩]
      refine List.Pairwise.chain' ?_
      exact (sortDesc_pairwise rkGe rkGe_total rkGe_trans l).sublist (List.take_sublist _ _)
  have hfused : List.Chain' (fun x y => rkGe x y = true) ((fusedOf env a).take (topKOf a)) := by
    show List.Chain' _
      ((if latestOf a = true ∧
            apply_rrf (vectorResultsOf env a) (bm25ResultsOf env a) (weightsOf a)
              (candidateKOf a) ≠ [] then
          sortDesc rkGe
            (apply_rrf (vectorResultsOf env a) (bm25ResultsOf env a) (weightsOf a)
              (candidateKOf a))
        else
          apply_rrf (vectorResultsOf env a) (bm25ResultsOf env a) (weightsOf a)
            (candidateKOf a)).take (topKOf a))
    exact hkey _
  by_cases h3 : a.use_reranker = true ∧ env.cohereKey = true ∧ fusedOf env a ≠ []
  · cases h4 : env.rerank (fusedOf env a) a.query (topKOf a) with
    | some reranked =>
      rw [hybrid_search_rerank_ok env a reranked hstore hpool h3 h4]
      exact hkey reranked
    | none =>
      rw [hybrid_search_rerank_fail env a hstore hpool h3 h4]
      exact hfused
  · rw [hybrid_search_no_rerank env a hstore hpool h3]
    exact hfused

/-- Document with year 2020 for the latest-mode counterexample. -/
def docY2020 : Doc := ⟨"older policy", [("year", .int 2020)]⟩

/-- Document with year 2024 for the latest-mode counterexample. -/
def docY2024 : Doc := ⟨"newer policy", [("year", .int 2024)]⟩

/-- Environment whose scan is empty and whose vector search returns the
older document before the newer one. -/
def envC3 : SearchEnv :=
  { storeOk := true
    scan := fun _ _ => ([], [])
    vectorSearch := fun _ _ _ => [docY2020, docY2024]
    bm25Rank := fun pool _ _ => pool
    cohereKey := false
    rerank := fun _ _ _ => none }

/-- Arguments with an explicit latest sort hint. -/
def argsLatest : SearchArgs :=
  { query := "rate policy", filters := some { sort := some (.str "latest") } }

/-- Claim C3 as stated is false: on the vector-only fallback path (empty
scan) in latest mode, hybrid_search returns the vector order unsorted,
here an older document before a newer one. -/
theorem C3_fallback_unsorted_counterexample :
    latestOf argsLatest = true ∧
    hybrid_search envC3 argsLatest = [docY2020, docY2024] ∧
    ¬ List.Chain' (fun x y => rkGe x y = true) (hybrid_search envC3 argsLatest) := by
  have h2 : hybrid_search envC3 argsLatest = [docY2020, docY2024] := by decide
  refine ⟨by decide, h2, ?_⟩
  rw [h2]
  intro hch
  rw [List.chain'_cons] at hch
  exact absurd hch.1 (by decide)

/-- Environment on the fused path for the C3 witness: two documents in
the scan, identity bm25, empty vector results, no reranker. -/
def envC3W : SearchEnv :=
  { storeOk := true
    scan := fun _ _ => (["older policy text", "newer policy text"],
      [[("doc_id", .str "old"), ("year", .int 2020)],
       [("doc_id", .str "new"), ("year", .int 2024)]])
    vectorSearch := fun _ _ _ => []
    bm25Rank := fun pool _ _ => pool
    cohereKey := false
    rerank := fun _ _ _ => none }

/-- Arguments for the C3 witness: latest hint and integer weights. -/
def argsLatestW : SearchArgs :=
  { query := "rate policy"
    bm25_weight := some 1
    vector_weight := some 0
    filters := some { sort := some (.str "latest") } }

/-- Witness for claim C3 amended at a concrete fused-path instance. -/
theorem C3_latest_mode_sorted_witness :
    latestOf argsLatestW = true ∧ poolOf envC3W argsLatestW ≠ [] ∧
    List.Chain' (fun x y => rkGe x y = true) (hybrid_search envC3W argsLatestW) :=
  ⟨by decide, by decide,
    C3_latest_mode_sorted_on_fused_paths envC3W argsLatestW rfl (by decide) (by decide)⟩

/-- Claim C5, confirmed: when the reranking step is attempted and the
reranker fails, hybrid_search returns the pre-rerank fused list
truncated to top_k, identical to what it returns with the reranker
disabled. -/
theorem C5_reranker_failure_returns_fused (env : SearchEnv) (a : SearchArgs)
    (hstore : env.storeOk = true) (hpool : poolOf env a ≠ [])
    (huse : a.use_reranker = true) (hkey : env.cohereKey = true)
    (hfused : fusedOf env a ≠ [])
    (hfail : env.rerank (fusedOf env a) a.query (topKOf a) = none) :
    hybrid_search env a = (fusedOf env a).take (topKOf a) ∧
    hybrid_search env a = hybrid_search env { a with use_reranker := false } := by
  have h1 := hybrid_search_rerank_fail env a hstore hpool ⟨huse, hkey, hfused⟩ hfail
  refine ⟨h1, ?_⟩
  rw [h1]
  have h2 : hybrid_search env { a with use_reranker := false } =
      (fusedOf env { a with use_reranker := false }).take
        (topKOf { a with use_reranker := false }) := by
    apply hybrid_search_no_rerank env { a with use_reranker := false } hstore hpool
    intro hcon
    exact absurd hcon.1 (by simp)
  rw [h2]
  rfl

/-- Environment with a one-document pool, a configured reranker that
always fails, and empty vector results. -/
def envC5 : SearchEnv :=
  { storeOk := true
    scan := fun _ _ => (["solo content"], [[]])
    vectorSearch := fun _ _ _ => []
    bm25Rank := fun pool _ _ => pool
    cohereKey := true
    rerank := fun _ _ _ => none }

/-- Plain arguments with integer weights. -/
def argsPlainW : SearchArgs :=
  { query := "q", bm25_weight := some 1, vector_weight := some 0 }

/-- Witness for claim C5 at a concrete failing-reranker instance. -/
theorem C5_reranker_failure_returns_fused_witness :
    poolOf envC5 argsPlainW ≠ [] ∧ fusedOf envC5 argsPlainW ≠ [] ∧
    hybrid_search envC5 argsPlainW = (fusedOf envC5 argsPlainW).take (topKOf argsPlainW) :=
  ⟨by decide, by decide,
    (C5_reranker_failure_returns_fused envC5 argsPlainW rfl (by decide) rfl rfl
      (by decide) rfl).1⟩

/-- Claim C6, confirmed: when the scan yields no documents, or only
documents whose stripped content is empty, hybrid_search returns the
vector-similarity results and the body returns normally rather than
raising. -/
theorem C6_empty_pool_falls_back_to_vector (env : SearchEnv) (a : SearchArgs)
    (hstore : env.storeOk = true) (hpool : poolOf env a = []) :
    hybrid_search env a = vectorResultsOf env a ∧
    hybrid_search_body env a = .ok (vectorResultsOf env a) := by
  refine ⟨hybrid_search_pool_empty env a hstore hpool, ?_⟩
  by_cases hs : (scanOf env a).1 = []
  · simp [hybrid_search_body, hstore, hs]
  · simp [hybrid_search_body, hstore, hs, hpool]

/-- Environment whose scan returns one whitespace-only document. -/
def envC6 : SearchEnv :=
  { storeOk := true
    scan := fun _ _ => ([" "], [[]])
    vectorSearch := fun _ _ _ => [docY2024]
    bm25Rank := fun pool _ _ => pool
    cohereKey := false
    rerank := fun _ _ _ => none }

/-- Witness for claim C6: a whitespace-only scan result leaves the
cleaned pool empty and the vector results are returned. -/
theorem C6_empty_pool_falls_back_to_vector_witness :
    poolOf envC6 argsPlainW = [] ∧
    hybrid_search envC6 argsPlainW = vectorResultsOf envC6 argsPlainW :=
  ⟨by decide, (C6_empty_pool_falls_back_to_vector envC6 argsPlainW rfl (by decide)).1⟩

/-- Environment whose store initialization fails. -/
def envC7 : SearchEnv :=
  { storeOk := false
    scan := fun _ _ => ([], [])
    vectorSearch := fun _ _ _ => []
    bm25Rank := fun pool _ _ => pool
    cohereKey := false
    rerank := fun _ _ _ => none }

/-- Claim C7 as stated is false: when the store is unreachable at the
start of a search, the raised initialization error is swallowed by the
catch-all handler and the caller of hybrid_search receives the empty
list, not an explicit failure. -/
theorem C7_config_error_swallowed_counterexample :
    hybrid_search_body envC7 argsPlainW = Except.error "DB Initialization Error" ∧
    hybrid_search envC7 argsPlainW = [] := by
  exact ⟨rfl, rfl⟩

/-- Claim C7, amended: every failure mode, configuration errors
included, yields a list for the caller; a store initialization failure
raises inside the body and the handler maps it to the empty list, while
with a reachable store the body returns normally and hybrid_search
returns its list. -/
theorem C7_caller_always_receives_list (env : SearchEnv) (a : SearchArgs) :
    (env.storeOk = false ∧
      hybrid_search_body env a = .error "DB Initialization Error" ∧
      hybrid_search env a = []) ∨
    (env.storeOk = true ∧
      ∃ l, hybrid_search_body env a = .ok l ∧ hybrid_search env a = l) := by
  cases hst : env.storeOk with
  | false =>
    left
    exact ⟨rfl, (hybrid_search_store_fail env a hst).1, (hybrid_search_store_fail env a hst).2⟩
  | true =>
    right
    refine ⟨rfl, ?_⟩
    have hbody : ∃ l, hybrid_search_body env a = .ok l := by
      unfold hybrid_search_body
      rw [hst]
      rw [if_neg (by simp)]
      split
      · exact ⟨_, rfl⟩
      · split
        · exact ⟨_, rfl⟩
        · split
          · split
            · exact ⟨_, rfl⟩
            · exact ⟨_, rfl⟩
          · exact ⟨_, rfl⟩
    obtain ⟨l, hl⟩ := hbody
    exact ⟨l, hl, by simp [hybrid_search, hl]⟩

/-- Claim C9 as stated is false: with the default top_k of 8 the
candidate pool target is 32, so the latest-mode scan bound is
max(250, 256) = 256, smaller than the non-latest bound 800. -/
theorem C9_latest_pool_not_larger_counterexample :
    latestOf argsLatest = true ∧
    poolLimitOf true (candidateKOf argsLatest) <
      poolLimitOf false (candidateKOf argsLatest) := by
  exact ⟨by decide, by decide⟩

/-- Claim C9, amended: the latest-mode scan bound max(250, candidate_k
times 8) exceeds the non-latest bound 800 exactly when candidate_k
exceeds 100, that is top_k at least 26 under the default multiplier;
for smaller candidate pools, the default bound, it is smaller or equal. -/
theorem C9_pool_limit_comparison (candidate_k : ℕ) :
    poolLimitOf false candidate_k < poolLimitOf true candidate_k ↔ 100 < candidate_k := by
  simp [poolLimitOf, DEFAULT_BM25_POOL_LIMIT, DEFAULT_LATEST_POOL]
  omega

theorem intRange_mem (a b y : ℤ) : y ∈ intRange a b ↔ a ≤ y ∧ y ≤ b := by
  unfold intRange
  constructor
  · intro hy
    obtain ⟨i, hi, hiy⟩ := List.mem_map.mp hy
    rw [List.mem_range, Int.lt_toNat] at hi
    have hnn : (0 : ℤ) ≤ (i : ℤ) := Int.natCast_nonneg i
    constructor
    · linarith [hiy]
    · linarith [hiy]
  · intro ⟨h1, h2⟩
    refine List.mem_map.mpr ⟨(y - a).toNat, ?_, ?_⟩
    · rw [List.mem_range, Int.lt_toNat, Int.toNat_of_nonneg (by linarith)]
      linarith
    · rw [Int.toNat_of_nonneg (by linarith)]
      ring

theorem intRange_ne_nil (a b : ℤ) (h : a ≤ b) : intRange a b ≠ [] := by
  intro hnil
  have : b ∈ intRange a b := (intRange_mem a b b).mpr ⟨h, le_refl b⟩
  rw [hnil] at this
  cases this

/-- Claim C4, confirmed: for every exact year filter value whose integer
parse succeeds, _build_year_condition produces the disjunction of the
parsed integer and the stripped string rendering, and under the store
predicate semantics a document storing the year as that integer and a
document storing it as that string rendering both satisfy the filter. -/
theorem C4_year_filter_matches_both_renderings (v : MetaVal) (n : ℤ)
    (h : safeIntVal v = some n) :
    build_year_condition (.value v) =
      some (.orc [.eqc "year" (.int n), .eqc "year" (.str (pyStrip (pyStr v)))]) ∧
    evalWhere (.orc [.eqc "year" (.int n), .eqc "year" (.str (pyStrip (pyStr v)))])
      [("year", .int n)] = true ∧
    evalWhere (.orc [.eqc "year" (.int n), .eqc "year" (.str (pyStrip (pyStr v)))])
      [("year", .str (pyStrip (pyStr v)))] = true := by
  refine ⟨?_, ?_, ?_⟩
  · simp [build_year_condition, h]
  · simp [evalWhere, evalWhereAny, mdGet]
  · simp [evalWhere, evalWhereAny, mdGet]

/-- Witness for claim C4 at the spec instance: the filter year 2024,
given as an integer, matches both the integer and the string storage. -/
theorem C4_year_filter_matches_both_renderings_witness :
    build_year_condition (.value (.int 2024)) =
      some (.orc [.eqc "year" (.int 2024), .eqc "year" (.str "2024")]) ∧
    evalWhere (.orc [.eqc "year" (.int 2024), .eqc "year" (.str "2024")])
      [("year", .int 2024)] = true ∧
    evalWhere (.orc [.eqc "year" (.int 2024), .eqc "year" (.str "2024")])
      [("year", .str "2024")] = true :=
  C4_year_filter_matches_both_renderings (.int 2024) 2024 rfl

/-- Claim C10 as stated is false: with both bounds present and lte less
than gte, the elif chain of _build_year_condition falls through to the
lower-bound branch, producing the string years gte..gte+5 instead of
the empty window gte..lte; a document storing the year as the string
2027 matches the range filter gte 2025, lte 2020 through that
expansion. -/
theorem C10_reversed_bounds_counterexample :
    build_year_condition (.range (some (.int 2025)) (some (.int 2020))) =
      some (.orc [.rangec "year" (some 2025) (some 2020),
        .inc "year" [.str "2025", .str "2026", .str "2027", .str "2028",
          .str "2029", .str "2030"]]) ∧
    evalWhere (.orc [.rangec "year" (some 2025) (some 2020),
      .inc "year" [.str "2025", .str "2026", .str "2027", .str "2028",
        .str "2029", .str "2030"]]) [("year", .str "2027")] = true := by
  exact ⟨rfl, by decide⟩

/-- Claim C10, amended: the string-year expansion of a range filter is
gte..lte with both bounds present when lte is at least gte, and
gte..gte+5 when the bounds are reversed (the elif fall-through);
gte..gte+5 with only a lower bound; max(1900, lte-5)..lte with only an
upper bound, empty when lte is below 1900; and a document storing a
year as a string outside this window fails a range filter that
numerically includes it. -/
theorem C10_range_expansion_window (g l y : ℤ) :
    build_year_condition (.range (some (.int g)) (some (.int l))) =
      some (.orc [.rangec "year" (some g) (some l),
        .inc "year" ((if g ≤ l then intRange g l else intRange g (g + 5)).map
          (fun z => .str (toString z)))]) ∧
    build_year_condition (.range (some (.int g)) none) =
      some (.orc [.rangec "year" (some g) none,
        .inc "year" ((intRange g (g + 5)).map (fun z => .str (toString z)))]) ∧
    build_year_condition (.range none (some (.int l))) =
      some (.orc ([.rangec "year" none (some l)] ++
        (if 1900 ≤ l then
          [.inc "year" ((intRange (max 1900 (l - 5)) l).map (fun z => .str (toString z)))]
        else []))) ∧
    (y ∈ intRange g l ↔ g ≤ y ∧ y ≤ l) ∧
    evalWhere (.orc [.rangec "year" (some 2000) none,
      .inc "year" ((intRange 2000 2005).map (fun z => .str (toString z)))])
      [("year", .str "2010")] = false := by
  refine ⟨?_, ?_, ?_, intRange_mem g l y, by decide⟩
  · by_cases hgl : g ≤ l
    · simp [build_year_condition, safeInt, safeIntVal, hgl, intRange_ne_nil g l hgl]
    · have hne : intRange g (g + 5) ≠ [] := intRange_ne_nil g (g + 5) (by omega)
      simp [build_year_condition, safeInt, safeIntVal, hgl, hne]
  · have hne : intRange g (g + 5) ≠ [] := intRange_ne_nil g (g + 5) (by omega)
    simp [build_year_condition, safeInt, safeIntVal, hne]
  · by_cases hl : 1900 ≤ l
    · have hne : intRange (max 1900 (l - 5)) l ≠ [] :=
        intRange_ne_nil _ l (by omega)
      simp [build_year_condition, safeInt, safeIntVal, hne, hl]
    · have hni : intRange (max 1900 (l - 5)) l = [] := by
        rcases List.eq_nil_or_concat (intRange (max 1900 (l - 5)) l) with h | ⟨_, z, h⟩
        · exact h
        · exfalso
          have : z ∈ intRange (max 1900 (l - 5)) l := by
            rw [h]; simp
          rw [intRange_mem] at this
          omega
      simp [build_year_condition, safeInt, safeIntVal, hni, hl]

/-
Stable chunk identity (src/retrieval/vector_store.py lines 65-88 and
122-160).  hashlib.sha1 is an external library function; it is modelled
as an abstract function parameter, assumed injective where the claims
concern collision-freedom, the standard idealization of a
cryptographic hash.
-/

/-- Python or of two optional scalars by truthiness. -/
def pyOrVal (a b : Option MetaVal) : Option MetaVal :=
  if truthyO a then a else b

/-- Python (value or empty string) rendered as a string. -/
def pyOrEmptyStr (o : Option MetaVal) : String :=
  match o with
  | some v => if truthy v then pyStr v else ""
  | none => ""

/-- The url component of the chunk id: (md.get url or md.get source
or empty), stripped. -/
def chunkUrlOf (d : Doc) : String :=
  pyStrip (pyOrEmptyStr (pyOrVal (mdGet d.metadata "url") (mdGet d.metadata "source")))

/-- The doc_id component of the chunk id: (md.get doc_id or empty),
stripped. -/
def chunkDocIdOf (d : Doc) : String :=
  pyStrip (pyOrEmptyStr (mdGet d.metadata "doc_id"))

/-- The page component of the chunk id, rendered as Python renders the
value inside an f-string, with None for an absent key. -/
def chunkPageOf (d : Doc) : String :=
  match mdGet d.metadata "page" with
  | none => "None"
  | some v => pyStr v

/-- The first 5000 characters of the stripped content, the hashed
content prefix of the chunk id. -/
def chunkPrefOf (d : Doc) : String :=
  String.mk ((pyStrip d.page_content).data.take 5000)

/-- Embedding of _stable_chunk_id (src/retrieval/vector_store.py lines
69-88): sha1 of a base string built from url, doc_id, page and a sha1
content hash, with the sentinel no_content for empty text. -/
def stable_chunk_id (sha1v : String → String) (d : Doc) : String :=
  let text := pyStrip d.page_content
  let content_hash := if text = "" then "no_content" else sha1v (chunkPrefOf d)
  sha1v ("url=" ++ chunkUrlOf d ++ "::doc_id=" ++ chunkDocIdOf d ++
    "::page=" ++ chunkPageOf d ++ "::ch=" ++ content_hash)

/-- Embedding of the id assignment loop of add_documents
(src/retrieval/vector_store.py lines 143-153) for one batch starting at
offset j: a repeated id within the batch is salted with a dup marker. -/
def computeIdsAux (sha1v : String → String) (seen : List String) (j : ℕ) :
    List Doc → List String
  | [] => []
  | d :: ds =>
    let cid0 := stable_chunk_id sha1v d
    let cid := if cid0 ∈ seen then sha1v (cid0 ++ "::dup::" ++ toString j) else cid0
    cid :: computeIdsAux sha1v (cid :: seen) (j + 1) ds

/-- Ids assigned to one upsert batch. -/
def computeBatchIds (sha1v : String → String) (batch : List Doc) : List String :=
  computeIdsAux sha1v [] 0 batch

theorem string_append_left_cancel {s a b : String} (h : s ++ a = s ++ b) : a = b := by
  have hd : (s ++ a).data = (s ++ b).data := by rw [h]
  rw [String.data_append, String.data_append] at hd
  exact String.ext (List.append_cancel_left hd)

theorem chunkPrefOf_empty_iff (d : Doc) :
    chunkPrefOf d = "" ↔ pyStrip d.page_content = "" := by
  cases hc : (pyStrip d.page_content) with
  | mk data =>
    simp only [chunkPrefOf, hc]
    constructor
    · intro h
      have hd : data.take 5000 = [] := by
        have := congrArg String.data h
        simpa using this
      have : data = [] := by
        rcases (List.take_eq_nil_iff.mp hd) with h5 | hnil
        · cases h5
        · exact hnil
      rw [this]
    · intro h
      have : data = [] := by
        have := congrArg String.data h
        simpa using this
      rw [this]
      rfl

/-- Claim C8, confirmed: the stable chunk id is a deterministic function
of the origin (url or source, doc_id, page) and the content prefix;
a batch of one chunk gets exactly its stable id, so re-submitting the
identical chunk yields the same identifier; and with an injective hash,
two chunks of the same origin with different nonempty content prefixes
get distinct identifiers. -/
theorem C8_stable_chunk_id_contract (sha1v : String → String)
    (hinj : Function.Injective sha1v) (d1 d2 : Doc) :
    (chunkUrlOf d1 = chunkUrlOf d2 → chunkDocIdOf d1 = chunkDocIdOf d2 →
      chunkPageOf d1 = chunkPageOf d2 → chunkPrefOf d1 = chunkPrefOf d2 →
      stable_chunk_id sha1v d1 = stable_chunk_id sha1v d2) ∧
    computeBatchIds sha1v [d1] = [stable_chunk_id sha1v d1] ∧
    (chunkUrlOf d1 = chunkUrlOf d2 → chunkDocIdOf d1 = chunkDocIdOf d2 →
      chunkPageOf d1 = chunkPageOf d2 → chunkPrefOf d1 ≠ chunkPrefOf d2 →
      pyStrip d1.page_content ≠ "" → pyStrip d2.page_content ≠ "" →
      stable_chunk_id sha1v d1 ≠ stable_chunk_id sha1v d2) := by
  refine ⟨?_, ?_, ?_⟩
  · intro hu hd hp hpref
    have hch : (if pyStrip d1.page_content = "" then "no_content"
        else sha1v (chunkPrefOf d1)) =
        (if pyStrip d2.page_content = "" then "no_content"
        else sha1v (chunkPrefOf d2)) := by
      by_cases h1 : pyStrip d1.page_content = ""
      · have h2 : pyStrip d2.page_content = "" := by
          rw [← chunkPrefOf_empty_iff] at h1 ⊢
          rw [← hpref]
          exact h1
        rw [if_pos h1, if_pos h2]
      · have h2 : ¬ pyStrip d2.page_content = "" := by
          rw [← chunkPrefOf_empty_iff] at h1 ⊢
          rw [← hpref]
          exact h1
        rw [if_neg h1, if_neg h2, hpref]
    show sha1v _ = sha1v _
    rw [hu, hd, hp, hch]
  · rfl
  · intro hu hd hp hpref hne1 hne2
    intro heq
    have hbase := hinj heq
    rw [hu, hd, hp] at hbase
    simp only [if_neg hne1, if_neg hne2] at hbase
    have hch : sha1v (chunkPrefOf d1) = sha1v (chunkPrefOf d2) :=
      string_append_left_cancel hbase
    exact hpref (hinj hch)

/-- First chunk for the C8 witness. -/
def chunkW1 : Doc :=
  ⟨"alpha text", [("url", .str "https://x/doc"), ("doc_id", .str "dX"), ("page", .int 1)]⟩

/-- Second chunk of the same source document with different content. -/
def chunkW2 : Doc :=
  ⟨"beta text", [("url", .str "https://x/doc"), ("doc_id", .str "dX"), ("page", .int 1)]⟩

/-- Witness for claim C8 with the identity function as the injective
hash: the two chunks get distinct ids and a singleton batch maps to the
stable id. -/
theorem C8_stable_chunk_id_contract_witness :
    stable_chunk_id (fun s => s) chunkW1 ≠ stable_chunk_id (fun s => s) chunkW2 ∧
    computeBatchIds (fun s => s) [chunkW1] = [stable_chunk_id (fun s => s) chunkW1] := by
  have h := C8_stable_chunk_id_contract (fun s => s) (fun a b hab => hab) chunkW1 chunkW2
  exact ⟨h.2.2 rfl rfl rfl (by decide) (by decide) (by decide), h.2.1⟩
